import Mathlib

/-!
Shallow embedding of the `writable-streams` repository: the buffered
writable-stream state machine of `src/writable.js` and the file-offset
bookkeeping of `src/fs-write-stream.js`.

Byte blocks are `List Nat`.  The injected sink operations `_write` /
`_writev`, the finalize operation `_final` and the teardown operation
`_destroy` are asynchronous: invoking one is recorded in the state (sink
calls in `sinkCalls`, an in-flight marker), and its completion is a separate
transition (`sinkDone`, `finalDone`, `teardownDone`) carrying the result the
operation reports.  Emitted signals and scheduled callbacks are recorded in
an `events` trace in emission order.  Synchronously thrown errors
(`StreamDestroyedError` thrown by `destroy`) are modelled as an `Exn` value
returned next to the state.  Argument validation (encoding names, chunk
types) is outside the model: chunks are already byte blocks, and the
single-block sink operation `_write` is assumed configured (as `write`
itself requires); whether `_writev` is configured is the `hasWritev` flag.
-/

namespace WritableStreams

/-- A contiguous byte block (the contents of a `Buffer`). -/
abbrev Chunk := List Nat

/-- Error kinds flowing through callbacks and error signals. -/
inductive Err
  | writeAfterEnd
  | streamDestroyed
  | external (n : Nat)
deriving DecidableEq, Repr

/-- A synchronously thrown error: `destroy` on a destroyed stream throws
`StreamDestroyedError`. -/
inductive Exn
  | destroyedExn
deriving DecidableEq, Repr

/-- One invocation of a sink operation: `one` is the single-block operation
`_write`, `many` is the multi-block operation `_writev`. -/
inductive SinkCall
  | one (block : Chunk)
  | many (blocks : List Chunk)
deriving DecidableEq, Repr

/-- Observable actions, recorded in emission order: emitted signals, a
`process.nextTick` scheduling of a write callback with an error, a write
callback being invoked from a sink completion, and the destroy callback. -/
inductive Ev
  | drain
  | finish
  | close
  | error (e : Err)
  | tick (cb : Option Nat) (e : Err)
  | cbRun (id : Nat) (e : Option Err)
  | destroyCb (e : Option Err)
deriving DecidableEq, Repr

/-- The writable state: the fields of `this[writableState]` in
`src/writable.js`, the configuration, plus bookkeeping for the asynchronous
collaborators: `inFlightCbs` is `some cbs` while a sink operation is
outstanding (`cbs` the callbacks captured at dispatch), `inFlightChunks`
records which accepted chunks that operation covers, `finalizing` is true
between the invocation of `_final` and its completion, `teardown` is
`some hasCb` between the invocation of `_destroy` and its completion,
`finalCalls` / `finalCompleted` / `destroyCalls` count invocations and
completions, `sinkCalls` is the trace of sink invocations and `events` the
trace of observable actions. -/
structure WState where
  highWaterMark : Nat
  hasWritev : Bool
  autoDestroy : Bool
  emitClose : Bool
  destroyed : Bool := false
  ended : Bool := false
  finished : Bool := false
  corked : Nat := 0
  writing : Bool := false
  needDrain : Bool := false
  bytesInQueue : Nat := 0
  buffers : List Chunk := []
  callbacks : List Nat := []
  bytesCorked : Nat := 0
  corkedBuffers : List Chunk := []
  corkedCallbacks : List Nat := []
  inFlightCbs : Option (List Nat) := none
  inFlightChunks : List Chunk := []
  finalizing : Bool := false
  finalCalls : Nat := 0
  finalCompleted : Nat := 0
  teardown : Option Bool := none
  destroyCalls : Nat := 0
  sinkCalls : List SinkCall := []
  events : List Ev := []
deriving DecidableEq, Repr

/-- A freshly constructed `Writable` with the given configuration. -/
def initState (hwm : Nat) (hv ad ec : Bool) : WState :=
  { highWaterMark := hwm, hasWritev := hv, autoDestroy := ad, emitClose := ec }

/-- Record an observable action. -/
def emitEv (s : WState) (e : Ev) : WState :=
  { s with events := s.events ++ [e] }

/-- `get writableLength()`: `bytesInQueue + bytesCorked`. -/
def writableLength (s : WState) : Nat :=
  s.bytesInQueue + s.bytesCorked

/-- What `[callWrite]` receives: either a single chunk (dispatched directly
from `write`) or an array of buffers (from `uncork` or the completion
callback). -/
inductive Dispatched
  | chunk (c : Chunk)
  | list (cs : List Chunk)
deriving DecidableEq, Repr

/-- The sink operation `[callWrite]` invokes for its `data` argument:
`_write(data)` when `data` is a single chunk; for an array,
`_writev(data)` when configured, else `_write(Buffer.concat(data))`. -/
def dispatchCall (hasWritev : Bool) (d : Dispatched) : SinkCall :=
  match d with
  | .chunk c => .one c
  | .list cs => if hasWritev then .many cs else .one cs.flatten

/-- The accepted chunks a dispatch covers. -/
def dispatchChunks (d : Dispatched) : List Chunk :=
  match d with
  | .chunk c => [c]
  | .list cs => cs

/-- `[callWrite](data)`: sets `writing`, captures and clears the pending
callbacks, and invokes the sink operation selected by `dispatchCall`. -/
def callWriteOp (s : WState) (d : Dispatched) : WState :=
  { s with
      writing := true
      callbacks := []
      inFlightCbs := some s.callbacks
      inFlightChunks := dispatchChunks d
      sinkCalls := s.sinkCalls ++ [dispatchCall s.hasWritev d] }

/-- `[getBuffers]()`: take the pending buffers, resetting the queue and its
byte counter. -/
def getBuffersOp (s : WState) : List Chunk × WState :=
  (s.buffers, { s with buffers := [], bytesInQueue := 0 })

/-- `destroy(error, callback)` (after the argument shuffle): throws
`StreamDestroyedError` if already destroyed; otherwise sets `destroyed` and
invokes the teardown operation `_destroy`, whose completion is a separate
transition. -/
def destroyOp (s : WState) (hasCb : Bool) : WState × Option Exn :=
  if s.destroyed then (s, some .destroyedExn)
  else
    ({ s with
        destroyed := true
        teardown := some hasCb
        destroyCalls := s.destroyCalls + 1 }, none)

/-- `[errorOrDestroy](error)`: destroys when `autoDestroy` is configured
(which throws if the stream is already destroyed), else emits the error
signal when there is an error. -/
def errorOrDestroyOp (s : WState) (e : Option Err) : WState × Option Exn :=
  if s.autoDestroy then destroyOp s false
  else
    match e with
    | some err => (emitEv s (.error err), none)
    | none => (s, none)

/-- The error a rejected write reports: the write-after-end error when
`ended` is true, else the destroyed error. -/
def rejectErr (s : WState) : Err :=
  if s.ended then .writeAfterEnd else .streamDestroyed

/-- `write(chunk, encoding, callback)` on an already-converted byte block:
on a stream that is ended or destroyed, schedules the callback with the
corresponding error on the next tick, applies the error-escalation policy
and returns `false` (an escalation into `destroy` on a destroyed stream
throws instead); otherwise registers the callback, then appends the chunk
to the corked queue if corked, to the pending queue if an operation is in
flight, or dispatches it directly; finally recomputes `needDrain` and
returns its negation. -/
def writeOp (s : WState) (c : Chunk) (cb : Option Nat) : WState × Except Exn Bool :=
  if s.ended || s.destroyed then
    let e := rejectErr s
    let s := emitEv s (.tick cb e)
    let r := errorOrDestroyOp s (some e)
    (r.1, match r.2 with
          | some x => .error x
          | none => .ok false)
  else
    let s :=
      match cb with
      | some id =>
          if s.corked > 0 then
            { s with corkedCallbacks := s.corkedCallbacks ++ [id] }
          else
            { s with callbacks := s.callbacks ++ [id] }
      | none => s
    let s :=
      if s.corked > 0 then
        { s with
            corkedBuffers := s.corkedBuffers ++ [c]
            bytesCorked := s.bytesCorked + c.length }
      else if s.writing then
        { s with
            buffers := s.buffers ++ [c]
            bytesInQueue := s.bytesInQueue + c.length }
      else
        callWriteOp s (.chunk c)
    let nd := decide (writableLength s ≥ s.highWaterMark)
    ({ s with needDrain := nd }, .ok !nd)

/-- `cork()`. -/
def corkOp (s : WState) : WState :=
  { s with corked := s.corked + 1 }

/-- `uncork()`: decrements the cork depth (if positive); at depth zero,
merges the corked queue into the pending queue and, when no operation is in
flight, dispatches the pending buffers. -/
def uncorkOp (s : WState) : WState :=
  let s := if s.corked > 0 then { s with corked := s.corked - 1 } else s
  if s.corked == 0 then
    let s := { s with
      buffers := s.buffers ++ s.corkedBuffers,
      callbacks := s.callbacks ++ s.corkedCallbacks,
      bytesInQueue := s.bytesInQueue + s.bytesCorked,
      bytesCorked := 0, corkedBuffers := [], corkedCallbacks := [] }
    if s.writing then s
    else
      let (bufs, s) := getBuffersOp s
      callWriteOp s (.list bufs)
  else s

/-- `end(chunk, encoding, callback)` (callback registration on the finish
signal elided): performs the implicit `write` when a chunk is given — an
exception from it aborts `end` before `ended` is set — then sets `ended`. -/
def endOp (s : WState) (c : Option Chunk) : WState × Option Exn :=
  match c with
  | some ch =>
      let r := writeOp s ch none
      match r.2 with
      | .error x => (r.1, some x)
      | .ok _ => ({ r.1 with ended := true }, none)
  | none => ({ s with ended := true }, none)

/-- `[callFinish]()`: sets `finished` and invokes the finalize operation
`_final`, whose completion is a separate transition. -/
def callFinishOp (s : WState) : WState :=
  { s with finished := true, finalizing := true, finalCalls := s.finalCalls + 1 }

/-- `callbacks.forEach((cb) => cb(error))`: invoke the captured callbacks,
in acceptance order, with the completion result. -/
def runCbs (s : WState) (cbs : List Nat) (e : Option Err) : WState :=
  cbs.foldl (fun t id => emitEv t (.cbRun id e)) s

/-- The completion callback built in `[callWrite]`, run when the in-flight
sink operation reports its result: invokes every captured callback with the
result, escalates an error, then either clears `writing` (emitting `drain`
if backpressure was active and proceeding to finalize if `ended`) when no
bytes are queued, or redispatches the pending buffers. -/
def sinkDoneOp (s : WState) (e : Option Err) : WState × Option Exn :=
  match s.inFlightCbs with
  | none => (s, none)
  | some cbs =>
    let s := { s with inFlightCbs := none, inFlightChunks := [] }
    let s := runCbs s cbs e
    let res :=
      match e with
      | some _ => errorOrDestroyOp s e
      | none => (s, none)
    if res.2.isSome then res
    else
      let s := res.1
      if s.bytesInQueue == 0 then
        let s := { s with writing := false }
        let s := if s.needDrain then emitEv { s with needDrain := false } .drain else s
        let s := if s.ended then callFinishOp s else s
        (s, none)
      else
        let (bufs, s) := getBuffersOp s
        (callWriteOp s (.list bufs), none)

/-- Completion of the finalize operation `_final`: emits the finish signal,
then applies the error-escalation policy to the error it reports. -/
def finalDoneOp (s : WState) (e : Option Err) : WState × Option Exn :=
  if s.finalizing then
    let s := { s with finalizing := false, finalCompleted := s.finalCompleted + 1 }
    let s := emitEv s .finish
    errorOrDestroyOp s e
  else (s, none)

/-- Completion of the teardown operation `_destroy`: invokes the destroy
callback if one was supplied, else emits the error signal when an error was
reported; then emits `close` when configured. -/
def teardownDoneOp (s : WState) (e : Option Err) : WState :=
  match s.teardown with
  | none => s
  | some hasCb =>
    let s := { s with teardown := none }
    let s :=
      if hasCb then emitEv s (.destroyCb e)
      else
        match e with
        | some err => emitEv s (.error err)
        | none => s
    if s.emitClose then emitEv s .close else s

/-- Transition labels: producer calls and completions of the asynchronous
collaborators. -/
inductive Label
  | write (c : Chunk) (cb : Option Nat)
  | cork
  | uncork
  | endL (c : Option Chunk)
  | destroyL (hasCb : Bool)
  | sinkDone (e : Option Err)
  | finalDone (e : Option Err)
  | teardownDone (e : Option Err)
deriving DecidableEq, Repr

/-- One transition of the state machine (the resulting state, whether or
not an exception escaped). -/
def step (s : WState) (l : Label) : WState :=
  match l with
  | .write c cb => (writeOp s c cb).1
  | .cork => corkOp s
  | .uncork => uncorkOp s
  | .endL c => (endOp s c).1
  | .destroyL hasCb => (destroyOp s hasCb).1
  | .sinkDone e => (sinkDoneOp s e).1
  | .finalDone e => (finalDoneOp s e).1
  | .teardownDone e => teardownDoneOp s e

/-- Run a sequence of transitions. -/
def run (s : WState) (ls : List Label) : WState :=
  ls.foldl step s

/-- The states a `Writable` can be in: a fresh instance, or any state one
transition away from a reachable state. -/
inductive Reachable : WState → Prop
  | init (hwm : Nat) (hv ad ec : Bool) : Reachable (initState hwm hv ad ec)
  | next {s : WState} (l : Label) : Reachable s → Reachable (step s l)

/-- The chunks accepted by `write` whose completion callbacks have not yet
fired: the in-flight batch, the pending queue and the corked queue. -/
def acceptedUncompleted (s : WState) : List Chunk :=
  s.inFlightChunks ++ s.buffers ++ s.corkedBuffers

/-!
The FileSink adapter (`src/fs-write-stream.js`), restricted to its sink
operations `_write` / `_writev` with the descriptor open: each write is
issued at file position `start + bytesWritten`, and on success the
cumulative counter grows by the byte count the underlying `fs.write` /
`fs.writev` reports.  On failure the callback receives the error and the
counter is untouched.
-/

/-- The offset/counter state of a `WritableFileStream` whose descriptor is
open. -/
structure FsState where
  start : Nat
  bytesWritten : Nat
deriving DecidableEq, Repr

/-- A call issued to the underlying file system: the file position and the
data handed over (`fs.write` gets one block, `fs.writev` a block list). -/
inductive FsCall
  | write (position : Nat) (data : Chunk)
  | writev (position : Nat) (data : List Chunk)
deriving DecidableEq, Repr

/-- `_write(data, callback)` with the descriptor open: issues
`fs.write(fd, data, 0, data.length, start + bytesWritten, ...)`; the
result the underlying write reports is `res` (`ok bytes` or an error).
Returns the issued call and the state after the completion ran. -/
def fsWriteOne (f : FsState) (data : Chunk) (res : Except Err Nat) : FsCall × FsState :=
  (.write (f.start + f.bytesWritten) data,
   match res with
   | .error _ => f
   | .ok bytes => { f with bytesWritten := f.bytesWritten + bytes })

/-- `_writev(data, callback)` with the descriptor open: issues
`fs.writev(fd, data, start + bytesWritten, ...)`; same completion contract
as `fsWriteOne`. -/
def fsWriteMany (f : FsState) (data : List Chunk) (res : Except Err Nat) : FsCall × FsState :=
  (.writev (f.start + f.bytesWritten) data,
   match res with
   | .error _ => f
   | .ok bytes => { f with bytesWritten := f.bytesWritten + bytes })

/-- A sink request handed to the FileSink adapter: a single block for
`_write` or a block list for `_writev`. -/
inductive FsReq
  | one (data : Chunk)
  | many (data : List Chunk)
deriving DecidableEq, Repr

/-- Perform one sink request against the adapter state. -/
def fsStep (f : FsState) (r : FsReq) (res : Except Err Nat) : FsCall × FsState :=
  match r with
  | .one d => fsWriteOne f d res
  | .many d => fsWriteMany f d res

/-- The file position an issued call carries. -/
def FsCall.position : FsCall → Nat
  | .write p _ => p
  | .writev p _ => p

/-- The file positions at which a sequence of successful sink requests
(each paired with the byte count the underlying write reports) is issued. -/
def fsRunOffsets (f : FsState) : List (FsReq × Nat) → List Nat
  | [] => []
  | (r, b) :: ws =>
      (fsStep f r (.ok b)).1.position :: fsRunOffsets (fsStep f r (.ok b)).2 ws

/-- The adapter state after a sequence of successful sink requests. -/
def fsRunState (f : FsState) : List (FsReq × Nat) → FsState
  | [] => f
  | (r, b) :: ws => fsRunState (fsStep f r (.ok b)).2 ws

/-- Spec-side contiguity: the offsets a contiguous sequence of writes
starting at `off` lands at, each advancing by the reported byte count. -/
def contiguousFrom (off : Nat) : List (FsReq × Nat) → List Nat
  | [] => []
  | (_, b) :: ws => off :: contiguousFrom (off + b) ws

/-- The conjunction of reachable-state invariants used by the claims. -/
def Inv (s : WState) : Prop :=
  s.bytesInQueue = (s.buffers.map List.length).sum ∧
  s.bytesCorked = (s.corkedBuffers.map List.length).sum ∧
  s.destroyCalls = (if s.destroyed then 1 else 0) ∧
  (s.finished = true → s.ended = true)

/-!
Lemmas: the reachable-state invariant, field-preservation facts for each
operation, monotonicity of the lifecycle flags, and the dispatch shape of
`cork` / `uncork` runs.
-/

lemma runCbs_spec (cbs : List Nat) (s : WState) (e : Option Err) :
    runCbs s cbs e =
      { s with events := s.events ++ cbs.map (fun id => Ev.cbRun id e) } := by
  induction cbs generalizing s with
  | nil => simp [runCbs]
  | cons a as ih =>
      rw [show runCbs s (a :: as) e = runCbs (emitEv s (.cbRun a e)) as e from rfl, ih]
      simp [emitEv]

lemma inv_init (hwm : Nat) (hv ad ec : Bool) : Inv (initState hwm hv ad ec) := by
  simp [Inv, initState]

lemma inv_emitEv (s : WState) (e : Ev) (h : Inv s) : Inv (emitEv s e) := by
  simpa [Inv, emitEv] using h

lemma inv_runCbs (s : WState) (cbs : List Nat) (e : Option Err) (h : Inv s) :
    Inv (runCbs s cbs e) := by
  rw [runCbs_spec]
  simpa [Inv] using h

lemma inv_destroyOp (s : WState) (hasCb : Bool) (h : Inv s) :
    Inv (destroyOp s hasCb).1 := by
  unfold Inv destroyOp at *
  split <;> simp_all

lemma inv_errorOrDestroyOp (s : WState) (e : Option Err) (h : Inv s) :
    Inv (errorOrDestroyOp s e).1 := by
  unfold errorOrDestroyOp
  split
  · exact inv_destroyOp s false h
  · split
    · exact inv_emitEv s _ h
    · exact h

lemma inv_callWriteOp (s : WState) (d : Dispatched) (h : Inv s) :
    Inv (callWriteOp s d) := by
  unfold Inv callWriteOp at *
  simp_all

lemma inv_getBuffersOp (s : WState) (h : Inv s) : Inv (getBuffersOp s).2 := by
  unfold Inv getBuffersOp at *
  simp_all

lemma inv_callFinishOp (s : WState) (he : s.ended = true) (h : Inv s) :
    Inv (callFinishOp s) := by
  unfold Inv callFinishOp at *
  simp_all

lemma inv_writeOp (s : WState) (c : Chunk) (cb : Option Nat) (h : Inv s) :
    Inv (writeOp s c cb).1 := by
  unfold writeOp
  split
  · exact inv_errorOrDestroyOp _ _ (inv_emitEv _ _ h)
  · have h2 : Inv (match cb with
      | some id =>
          if s.corked > 0 then
            { s with corkedCallbacks := s.corkedCallbacks ++ [id] }
          else
            { s with callbacks := s.callbacks ++ [id] }
      | none => s) := by
      unfold Inv at *
      cases cb with
      | none => simp_all
      | some id =>
          dsimp only
          split <;> simp_all
    set t := (match cb with
      | some id =>
          if s.corked > 0 then
            { s with corkedCallbacks := s.corkedCallbacks ++ [id] }
          else
            { s with callbacks := s.callbacks ++ [id] }
      | none => s) with ht
    have h3 : Inv (if t.corked > 0 then
        { t with
            corkedBuffers := t.corkedBuffers ++ [c]
            bytesCorked := t.bytesCorked + c.length }
      else if t.writing then
        { t with
            buffers := t.buffers ++ [c]
            bytesInQueue := t.bytesInQueue + c.length }
      else callWriteOp t (.chunk c)) := by
      split
      · unfold Inv at *
        simp_all
      · split
        · unfold Inv at *
          simp_all
        · exact inv_callWriteOp t _ h2
    unfold Inv at *
    simp_all

lemma inv_corkOp (s : WState) (h : Inv s) : Inv (corkOp s) := by
  unfold Inv corkOp at *
  simp_all

lemma inv_uncorkOp (s : WState) (h : Inv s) : Inv (uncorkOp s) := by
  unfold uncorkOp
  set s1 := if s.corked > 0 then { s with corked := s.corked - 1 } else s with hs1
  have h1 : Inv s1 := by
    rw [hs1]
    unfold Inv at *
    split <;> simp_all
  dsimp only
  split
  · split
    · unfold Inv at h1 ⊢
      simp_all
    · exact inv_callWriteOp _ _ (inv_getBuffersOp _ (by unfold Inv at h1 ⊢; simp_all))
  · exact h1

lemma inv_endOp (s : WState) (c : Option Chunk) (h : Inv s) : Inv (endOp s c).1 := by
  unfold endOp
  cases c with
  | none =>
      unfold Inv at *
      simp_all
  | some ch =>
      have hw : Inv (writeOp s ch none).1 := inv_writeOp s ch none h
      cases hr : (writeOp s ch none).2 with
      | error x => simp only [hr]; exact hw
      | ok b =>
          simp only [hr]
          unfold Inv at *
          simp_all

lemma inv_sinkDoneOp (s : WState) (e : Option Err) (h : Inv s) :
    Inv (sinkDoneOp s e).1 := by
  unfold sinkDoneOp
  rcases hcb : s.inFlightCbs with _ | cbs
  · simpa [hcb] using h
  · simp only [hcb]
    set s2 := runCbs { s with inFlightCbs := none, inFlightChunks := [] } cbs e with hs2
    have h2 : Inv s2 := by
      refine inv_runCbs _ cbs e ?_
      unfold Inv at *
      simp_all
    set res := (match e with
      | some _ => errorOrDestroyOp s2 e
      | none => (s2, none)) with hres
    have hr : Inv res.1 := by
      rw [hres]
      cases e with
      | none => exact h2
      | some err => exact inv_errorOrDestroyOp s2 _ h2
    split
    · exact hr
    · split
      · set sA := { res.1 with writing := false } with hsA
        have hA : Inv sA := by
          unfold Inv at *
          rw [hsA]
          simp_all
        set sB := if sA.needDrain = true then emitEv { sA with needDrain := false } .drain else sA with hsB
        have hB : Inv sB := by
          rw [hsB]
          split
          · refine inv_emitEv _ _ ?_
            unfold Inv at *
            simp_all
          · exact hA
        split
        · exact inv_callFinishOp sB (by assumption) hB
        · exact hB
      · exact inv_callWriteOp _ _ (inv_getBuffersOp res.1 hr)

lemma inv_finalDoneOp (s : WState) (e : Option Err) (h : Inv s) :
    Inv (finalDoneOp s e).1 := by
  unfold finalDoneOp
  split
  · refine inv_errorOrDestroyOp _ _ (inv_emitEv _ _ ?_)
    unfold Inv at *
    simp_all
  · exact h

lemma inv_teardownDoneOp (s : WState) (e : Option Err) (h : Inv s) :
    Inv (teardownDoneOp s e) := by
  unfold Inv teardownDoneOp emitEv at *
  rcases htd : s.teardown with _ | hasCb <;> simp only [htd] <;> (try dsimp only) <;>
    repeat' split <;> simp_all

lemma inv_step (s : WState) (l : Label) (h : Inv s) : Inv (step s l) := by
  cases l with
  | write c cb => exact inv_writeOp s c cb h
  | cork => exact inv_corkOp s h
  | uncork => exact inv_uncorkOp s h
  | endL c => exact inv_endOp s c h
  | destroyL hasCb => exact inv_destroyOp s hasCb h
  | sinkDone e => exact inv_sinkDoneOp s e h
  | finalDone e => exact inv_finalDoneOp s e h
  | teardownDone e => exact inv_teardownDoneOp s e h

lemma inv_reachable (s : WState) (h : Reachable s) : Inv s := by
  induction h with
  | init hwm hv ad ec => exact inv_init hwm hv ad ec
  | next l _ ih => exact inv_step _ l ih

lemma eod_fields (s : WState) (e : Option Err) :
    (errorOrDestroyOp s e).1.finished = s.finished ∧
    (errorOrDestroyOp s e).1.ended = s.ended ∧
    (errorOrDestroyOp s e).1.bytesInQueue = s.bytesInQueue ∧
    (errorOrDestroyOp s e).1.bytesCorked = s.bytesCorked ∧
    (errorOrDestroyOp s e).1.finalCalls = s.finalCalls ∧
    (errorOrDestroyOp s e).1.finalizing = s.finalizing ∧
    (errorOrDestroyOp s e).1.finalCompleted = s.finalCompleted ∧
    (errorOrDestroyOp s e).1.writing = s.writing ∧
    (errorOrDestroyOp s e).1.needDrain = s.needDrain ∧
    (errorOrDestroyOp s e).1.buffers = s.buffers ∧
    (errorOrDestroyOp s e).1.sinkCalls = s.sinkCalls ∧
    (errorOrDestroyOp s e).1.inFlightCbs = s.inFlightCbs := by
  unfold errorOrDestroyOp destroyOp emitEv
  repeat' split
  all_goals simp

lemma eod_destroyed (s : WState) (e : Option Err) :
    (errorOrDestroyOp s e).1.destroyed = (s.destroyed || s.autoDestroy) := by
  unfold errorOrDestroyOp destroyOp emitEv
  repeat' split
  all_goals simp_all

lemma writeOp_finished (s : WState) (c : Chunk) (cb : Option Nat) :
    (writeOp s c cb).1.finished = s.finished := by
  unfold writeOp
  split
  · exact ((eod_fields _ _).1).trans (by simp [emitEv])
  · dsimp only
    repeat' split
    all_goals simp [callWriteOp]

lemma writeOp_destroyed_mono (s : WState) (c : Chunk) (cb : Option Nat)
    (h : s.destroyed = true) : (writeOp s c cb).1.destroyed = true := by
  unfold writeOp
  split
  · rw [eod_destroyed]
    simp [emitEv, h]
  · dsimp only
    repeat' split
    all_goals simp_all [callWriteOp]

lemma uncorkOp_finished (s : WState) : (uncorkOp s).finished = s.finished := by
  unfold uncorkOp
  dsimp only
  repeat' split
  all_goals simp_all [callWriteOp, getBuffersOp]

lemma uncorkOp_destroyed (s : WState) : (uncorkOp s).destroyed = s.destroyed := by
  unfold uncorkOp
  dsimp only
  repeat' split
  all_goals simp_all [callWriteOp, getBuffersOp]

lemma endOp_finished (s : WState) (c : Option Chunk) :
    (endOp s c).1.finished = s.finished := by
  unfold endOp
  cases c with
  | none => simp
  | some ch =>
      dsimp only
      split <;> simp [writeOp_finished]

lemma endOp_destroyed_mono (s : WState) (c : Option Chunk) (h : s.destroyed = true) :
    (endOp s c).1.destroyed = true := by
  unfold endOp
  cases c with
  | none => simpa
  | some ch =>
      dsimp only
      split <;> simp [writeOp_destroyed_mono s _ none h]

lemma finalDoneOp_finished (s : WState) (e : Option Err) :
    (finalDoneOp s e).1.finished = s.finished := by
  unfold finalDoneOp
  split
  · exact ((eod_fields _ _).1).trans (by simp [emitEv])
  · rfl

lemma finalDoneOp_destroyed_mono (s : WState) (e : Option Err) (h : s.destroyed = true) :
    (finalDoneOp s e).1.destroyed = true := by
  unfold finalDoneOp
  split
  · rw [eod_destroyed]
    simp [emitEv, h]
  · exact h

lemma teardownDoneOp_finished (s : WState) (e : Option Err) :
    (teardownDoneOp s e).finished = s.finished := by
  unfold teardownDoneOp emitEv
  dsimp only
  repeat' split
  all_goals simp_all

lemma teardownDoneOp_destroyed (s : WState) (e : Option Err) :
    (teardownDoneOp s e).destroyed = s.destroyed := by
  unfold teardownDoneOp emitEv
  dsimp only
  repeat' split
  all_goals simp_all

lemma destroyOp_destroyed_mono (s : WState) (hasCb : Bool) (h : s.destroyed = true) :
    (destroyOp s hasCb).1.destroyed = true := by
  unfold destroyOp
  split <;> simp_all

lemma sinkDoneOp_destroyed_mono (s : WState) (e : Option Err) (h : s.destroyed = true) :
    (sinkDoneOp s e).1.destroyed = true := by
  unfold sinkDoneOp
  rcases hcb : s.inFlightCbs with _ | cbs
  · simpa [hcb] using h
  · simp only [hcb]
    set s2 := runCbs { s with inFlightCbs := none, inFlightChunks := [] } cbs e with hs2
    have h2 : s2.destroyed = true := by
      rw [hs2, runCbs_spec]
      simpa using h
    set res := (match e with
      | some _ => errorOrDestroyOp s2 e
      | none => (s2, none)) with hres
    have hr : res.1.destroyed = true := by
      rw [hres]
      cases e with
      | none => exact h2
      | some err => rw [eod_destroyed]; simp [h2]
    split
    · exact hr
    · split
      · set sA := { res.1 with writing := false } with hsA
        set sB := if sA.needDrain = true then emitEv { sA with needDrain := false } .drain else sA with hsB
        have hB : sB.destroyed = true := by
          rw [hsB]
          split <;> simp_all [emitEv, hsA]
        split <;> simp_all [callFinishOp]
      · simp [callWriteOp, getBuffersOp, hr]

lemma step_destroyed_mono (s : WState) (l : Label) (h : s.destroyed = true) :
    (step s l).destroyed = true := by
  cases l with
  | write c cb => exact writeOp_destroyed_mono s c cb h
  | cork => exact h
  | uncork => rw [step, uncorkOp_destroyed]; exact h
  | endL c => exact endOp_destroyed_mono s c h
  | destroyL hasCb => exact destroyOp_destroyed_mono s hasCb h
  | sinkDone e => exact sinkDoneOp_destroyed_mono s e h
  | finalDone e => exact finalDoneOp_destroyed_mono s e h
  | teardownDone e => rw [step, teardownDoneOp_destroyed]; exact h

lemma destroyOp_finished (s : WState) (hasCb : Bool) :
    (destroyOp s hasCb).1.finished = s.finished := by
  unfold destroyOp
  split <;> simp

lemma sinkDoneOp_finished_flip (s : WState) (e : Option Err)
    (h0 : s.finished = false) (h1 : (sinkDoneOp s e).1.finished = true) :
    (sinkDoneOp s e).1.ended = true ∧ (sinkDoneOp s e).1.bytesInQueue = 0 ∧
    (sinkDoneOp s e).1.finalizing = true ∧
    (sinkDoneOp s e).1.finalCalls = s.finalCalls + 1 := by
  unfold sinkDoneOp at h1 ⊢
  rcases hcb : s.inFlightCbs with _ | cbs
  · simp only [hcb] at h1
    exact absurd h1 (by simp [h0])
  · simp only [hcb] at h1 ⊢
    set s2 := runCbs { s with inFlightCbs := none, inFlightChunks := [] } cbs e with hs2
    have h2fin : s2.finished = false := by
      rw [hs2, runCbs_spec]
      simpa using h0
    have h2fc : s2.finalCalls = s.finalCalls := by
      rw [hs2, runCbs_spec]
    set res := (match e with
      | some _ => errorOrDestroyOp s2 e
      | none => (s2, none)) with hres
    have hrfin : res.1.finished = false := by
      rw [hres]
      cases e with
      | none => exact h2fin
      | some err => rw [(eod_fields s2 (some err)).1]; exact h2fin
    have hrfc : res.1.finalCalls = s.finalCalls := by
      rw [hres]
      cases e with
      | none => exact h2fc
      | some err => rw [(eod_fields s2 (some err)).2.2.2.2.1]; exact h2fc
    split at h1
    · exact absurd h1 (by simp [hrfin])
    · split at h1
      · set sA := { res.1 with writing := false } with hsA
        set sB := if sA.needDrain = true then emitEv { sA with needDrain := false } .drain else sA with hsB
        have hBfin : sB.finished = false := by
          rw [hsB]
          split <;> simp [emitEv, hsA, hrfin]
        have hBfc : sB.finalCalls = s.finalCalls := by
          rw [hsB]
          split <;> simp [emitEv, hsA, hrfc]
        have hBq : sB.bytesInQueue = res.1.bytesInQueue := by
          rw [hsB]
          split <;> simp [emitEv, hsA]
        split at h1
        · simp only [*]
          refine ⟨?_, ?_, ?_, ?_⟩ <;> simp_all [callFinishOp]
        · exact absurd h1 (by simp [hBfin])
      · exact absurd h1 (by simp [callWriteOp, getBuffersOp, hrfin])


lemma step_finished_flip (s : WState) (l : Label) (h0 : s.finished = false)
    (h1 : (step s l).finished = true) :
    (step s l).ended = true ∧ (step s l).bytesInQueue = 0 ∧
    (step s l).finalizing = true ∧ (step s l).finalCalls = s.finalCalls + 1 := by
  cases l with
  | write c cb =>
      simp only [step] at h1
      rw [writeOp_finished] at h1
      exact absurd h1 (by simp [h0])
  | cork =>
      simp only [step, corkOp] at h1
      exact absurd h1 (by simp [h0])
  | uncork =>
      simp only [step] at h1
      rw [uncorkOp_finished] at h1
      exact absurd h1 (by simp [h0])
  | endL c =>
      simp only [step] at h1
      rw [endOp_finished] at h1
      exact absurd h1 (by simp [h0])
  | destroyL hasCb =>
      simp only [step] at h1
      rw [destroyOp_finished] at h1
      exact absurd h1 (by simp [h0])
  | sinkDone e =>
      simp only [step] at h1 ⊢
      exact sinkDoneOp_finished_flip s e h0 h1
  | finalDone e =>
      simp only [step] at h1
      rw [finalDoneOp_finished] at h1
      exact absurd h1 (by simp [h0])
  | teardownDone e =>
      simp only [step] at h1
      rw [teardownDoneOp_finished] at h1
      exact absurd h1 (by simp [h0])

lemma writeOp_corked_accept (s : WState) (c : Chunk)
    (hc : 0 < s.corked) (he : s.ended = false) (hd : s.destroyed = false) :
    (writeOp s c none).1 = { s with
        corkedBuffers := s.corkedBuffers ++ [c]
        bytesCorked := s.bytesCorked + c.length
        needDrain :=
          decide (s.bytesInQueue + (s.bytesCorked + c.length) ≥ s.highWaterMark) } := by
  unfold writeOp writableLength
  simp [he, hd, hc]

lemma run_corked_writes (cs : List Chunk) (s : WState)
    (hc : s.corked = 1) (he : s.ended = false) (hd : s.destroyed = false) :
    (run s (cs.map (fun c => Label.write c none))).corked = 1 ∧
    (run s (cs.map (fun c => Label.write c none))).ended = false ∧
    (run s (cs.map (fun c => Label.write c none))).destroyed = false ∧
    (run s (cs.map (fun c => Label.write c none))).writing = s.writing ∧
    (run s (cs.map (fun c => Label.write c none))).buffers = s.buffers ∧
    (run s (cs.map (fun c => Label.write c none))).bytesInQueue = s.bytesInQueue ∧
    (run s (cs.map (fun c => Label.write c none))).corkedBuffers = s.corkedBuffers ++ cs ∧
    (run s (cs.map (fun c => Label.write c none))).callbacks = s.callbacks ∧
    (run s (cs.map (fun c => Label.write c none))).corkedCallbacks = s.corkedCallbacks ∧
    (run s (cs.map (fun c => Label.write c none))).sinkCalls = s.sinkCalls ∧
    (run s (cs.map (fun c => Label.write c none))).hasWritev = s.hasWritev ∧
    (run s (cs.map (fun c => Label.write c none))).inFlightCbs = s.inFlightCbs := by
  induction cs generalizing s with
  | nil => simp_all [run]
  | cons c cs ih =>
      have hstep : run s ((c :: cs).map (fun c => Label.write c none)) =
          run (writeOp s c none).1 (cs.map (fun c => Label.write c none)) := rfl
      rw [hstep, writeOp_corked_accept s c (by omega) he hd]
      have := ih { s with
        corkedBuffers := s.corkedBuffers ++ [c]
        bytesCorked := s.bytesCorked + c.length
        needDrain :=
          decide (s.bytesInQueue + (s.bytesCorked + c.length) ≥ s.highWaterMark) }
        (by simpa using hc) (by simpa using he) (by simpa using hd)
      simpa using this

lemma uncorkOp_dispatch (v : WState) (hc : v.corked = 1) (hw : v.writing = false) :
    uncorkOp v = { v with
        corked := 0
        buffers := []
        callbacks := []
        bytesInQueue := 0
        bytesCorked := 0
        corkedBuffers := []
        corkedCallbacks := []
        writing := true
        inFlightCbs := some (v.callbacks ++ v.corkedCallbacks)
        inFlightChunks := v.buffers ++ v.corkedBuffers
        sinkCalls := v.sinkCalls ++
          [dispatchCall v.hasWritev (.list (v.buffers ++ v.corkedBuffers))] } := by
  unfold uncorkOp getBuffersOp callWriteOp
  simp [hc, hw, dispatchChunks]

lemma writeOp_rejected (s : WState) (c : Chunk) (cb : Option Nat)
    (had : s.autoDestroy = false) (hrej : s.ended = true ∨ s.destroyed = true) :
    writeOp s c cb =
      ({ s with events := s.events ++ [.tick cb (rejectErr s), .error (rejectErr s)] },
       .ok false) := by
  unfold writeOp errorOrDestroyOp emitEv
  rcases hrej with h | h <;> simp [h, had]

lemma writeOp_accept_backpressure (s : WState) (c : Chunk) (cb : Option Nat)
    (he : s.ended = false) (hd : s.destroyed = false) :
    (writeOp s c cb).2 =
      .ok (!decide (writableLength (writeOp s c cb).1 ≥ s.highWaterMark)) ∧
    writableLength (writeOp s c cb).1 =
      (if 0 < s.corked ∨ s.writing = true then writableLength s + c.length
       else writableLength s) := by
  unfold writeOp writableLength
  simp only [he, hd, Bool.or_self, Bool.false_eq_true, if_false]
  by_cases hc : 0 < s.corked
  · cases cb <;> simp [hc, callWriteOp] <;> omega
  · by_cases hw : s.writing = true
    · cases cb <;> simp [hc, hw, callWriteOp] <;> omega
    · cases cb <;> simp [hc, hw, callWriteOp]

lemma fsRunOffsets_contiguous (ws : List (FsReq × Nat)) (f : FsState) :
    fsRunOffsets f ws = contiguousFrom (f.start + f.bytesWritten) ws := by
  induction ws generalizing f with
  | nil => rfl
  | cons w ws ih =>
      obtain ⟨r, b⟩ := w
      cases r <;>
        simp [fsRunOffsets, contiguousFrom, fsStep, fsWriteOne, fsWriteMany,
          FsCall.position, ih, Nat.add_assoc]

lemma fsRunState_sum (ws : List (FsReq × Nat)) (f : FsState) :
    fsRunState f ws = { f with bytesWritten := f.bytesWritten + (ws.map Prod.snd).sum } := by
  induction ws generalizing f with
  | nil => simp [fsRunState]
  | cons w ws ih =>
      obtain ⟨r, b⟩ := w
      cases r <;>
        simp [fsRunState, fsStep, fsWriteOne, fsWriteMany, ih, Nat.add_assoc]

/-!
The claims.
-/

/-- C1: the claim expects that `end()` on a fresh stream with no prior
writes and no operation in flight runs finalize once and raises the finish
signal.  The code does not: `end` only sets `ended`; `[callFinish]` is
reached solely from the completion callback of a sink operation, so with no
write activity the finalize operation is never invoked, no finish signal is
ever emitted, and the state is quiescent (nothing in flight that could
still trigger it).  This theorem evaluates the code at that failing
input. -/
theorem C1_end_without_writes_never_finalizes :
    (endOp (initState 16384 true false true) none).2 = none ∧
    (endOp (initState 16384 true false true) none).1.ended = true ∧
    (endOp (initState 16384 true false true) none).1.finished = false ∧
    (endOp (initState 16384 true false true) none).1.finalCalls = 0 ∧
    (endOp (initState 16384 true false true) none).1.events = [] ∧
    (endOp (initState 16384 true false true) none).1.inFlightCbs = none ∧
    (endOp (initState 16384 true false true) none).1.finalizing = false ∧
    (endOp (initState 16384 true false true) none).1.teardown = none := by
  decide

/-- C2 (amended): in every reachable state, `finished` implies `ended`; and
whenever a transition flips `finished` to true, the resulting state has
`ended` true, an empty byte queue, and the finalize operation freshly
invoked but not yet completed — i.e. `finished` is set at the moment
finalize is invoked (after the queue drained), not after finalize's
completion callback runs. -/
theorem C2_finished_set_when_finalize_invoked :
    (∀ s : WState, Reachable s → s.finished = true → s.ended = true) ∧
    (∀ (s : WState) (l : Label), s.finished = false → (step s l).finished = true →
      (step s l).ended = true ∧ (step s l).bytesInQueue = 0 ∧
      (step s l).finalizing = true ∧ (step s l).finalCalls = s.finalCalls + 1) :=
  ⟨fun s h hf => (inv_reachable s h).2.2.2 hf,
   fun s l h0 h1 => step_finished_flip s l h0 h1⟩

/-- C2 witness: the general theorem applied to the concrete trace
write-end-complete. -/
theorem C2_finished_set_when_finalize_invoked_witness :
    (run (initState 100 true false true)
      [.write [1] none, .endL none, .sinkDone none]).ended = true ∧
    (step (run (initState 100 true false true) [.write [1] none, .endL none])
      (.sinkDone none)).finalizing = true := by
  constructor
  · exact C2_finished_set_when_finalize_invoked.1 _
      (Reachable.next (Label.sinkDone none) (Reachable.next (Label.endL none)
        (Reachable.next (Label.write [1] none)
          (Reachable.init 100 true false true)))) (by decide)
  · exact (C2_finished_set_when_finalize_invoked.2 _ (.sinkDone none)
      (by decide) (by decide)).2.2.1

/-- C2 counterexample to the claim as stated: a reachable state in which
`finished` is true while the finalize operation has been invoked but has
not completed (`finalizing` true, zero completions) — so `finished` is set
before finalize's completion callback runs, not after. -/
theorem C2_finished_true_before_finalize_completes_cex :
    Reachable (run (initState 100 true false true)
      [.write [1] none, .endL none, .sinkDone none]) ∧
    (run (initState 100 true false true)
      [.write [1] none, .endL none, .sinkDone none]).finished = true ∧
    (run (initState 100 true false true)
      [.write [1] none, .endL none, .sinkDone none]).finalizing = true ∧
    (run (initState 100 true false true)
      [.write [1] none, .endL none, .sinkDone none]).finalCompleted = 0 := by
  refine ⟨Reachable.next (Label.sinkDone none) (Reachable.next (Label.endL none)
    (Reachable.next (Label.write [1] none)
      (Reachable.init 100 true false true))), ?_, ?_, ?_⟩ <;> decide

/-- C3 (amended): an accepted write returns `false` exactly when the bytes
still queued for dispatch after accepting the chunk (pending plus corked,
the `writableLength` getter) reach `highWaterMark`; a batch already handed
to the sink is not counted: the chunk's bytes enter that measure only when
the write is corked or an operation is in flight, not when it is
dispatched immediately. -/
theorem C3_backpressure_counts_only_undispatched_bytes
    (s : WState) (c : Chunk) (cb : Option Nat)
    (he : s.ended = false) (hd : s.destroyed = false) :
    (writeOp s c cb).2 =
      .ok (!decide (writableLength (writeOp s c cb).1 ≥ s.highWaterMark)) ∧
    writableLength (writeOp s c cb).1 =
      (if 0 < s.corked ∨ s.writing = true then writableLength s + c.length
       else writableLength s) := by
  unfold writeOp writableLength
  simp only [he, hd, Bool.or_self, Bool.false_eq_true, if_false]
  by_cases hc : 0 < s.corked
  · cases cb <;> simp [hc, callWriteOp] <;> omega
  · by_cases hw : s.writing = true
    · cases cb <;> simp [hc, hw, callWriteOp] <;> omega
    · cases cb <;> simp [hc, hw, callWriteOp]

/-- C3 witness: the general theorem applied to a fresh stream with
`highWaterMark = 10` and a six-byte chunk. -/
theorem C3_backpressure_counts_only_undispatched_bytes_witness :
    (writeOp (initState 10 true false true) [1, 2, 3, 4, 5, 6] none).2 =
      .ok (!decide (writableLength
        (writeOp (initState 10 true false true) [1, 2, 3, 4, 5, 6] none).1 ≥
          (initState 10 true false true).highWaterMark)) :=
  (C3_backpressure_counts_only_undispatched_bytes
    (initState 10 true false true) [1, 2, 3, 4, 5, 6] none rfl rfl).1

/-- C3 counterexample to the claim as stated: with `highWaterMark = 10`,
write six bytes (dispatched, in flight), then six more while the first is
in flight.  The accepted-but-uncompleted total is 12 ≥ 10, yet the second
write returns `true`, because the in-flight batch's bytes are not counted
by the code. -/
theorem C3_second_write_returns_true_cex :
    (writeOp (initState 10 true false true) [1, 2, 3, 4, 5, 6] none).2 = .ok true ∧
    (writeOp (initState 10 true false true) [1, 2, 3, 4, 5, 6] none).1.writing = true ∧
    (writeOp (initState 10 true false true)
      [1, 2, 3, 4, 5, 6] none).1.inFlightChunks = [[1, 2, 3, 4, 5, 6]] ∧
    (writeOp (writeOp (initState 10 true false true) [1, 2, 3, 4, 5, 6] none).1
      [7, 8, 9, 10, 11, 12] none).2 = .ok true ∧
    ((acceptedUncompleted
      (writeOp (writeOp (initState 10 true false true) [1, 2, 3, 4, 5, 6] none).1
        [7, 8, 9, 10, 11, 12] none).1).map List.length).sum = 12 :=
  ⟨rfl, rfl, rfl, rfl, rfl⟩

/-- C4 (amended): in every reachable state the tracked byte totals
(`writableLength`, i.e. `bytesInQueue + bytesCorked`) equal the summed
lengths of the chunks in the pending and corked queues — the chunks
accepted but not yet handed to the sink; an in-flight batch is no longer
counted even though its completion callbacks have not fired. -/
theorem C4_queued_byte_totals_match_queues (s : WState) (h : Reachable s) :
    writableLength s = ((s.buffers ++ s.corkedBuffers).map List.length).sum := by
  obtain ⟨h1, h2, -, -⟩ := inv_reachable s h
  simp [writableLength, h1, h2]

/-- C4 witness: the invariant applied to the reachable state after one
dispatched write. -/
theorem C4_queued_byte_totals_match_queues_witness :
    writableLength (step (initState 10 true false true) (.write [1] none)) =
      (((step (initState 10 true false true) (.write [1] none)).buffers ++
        (step (initState 10 true false true) (.write [1] none)).corkedBuffers).map
          List.length).sum :=
  C4_queued_byte_totals_match_queues _
    (Reachable.next _ (Reachable.init 10 true false true))

/-- C4 counterexample to the claim as stated: after one immediately
dispatched one-byte write, the chunk has been accepted and its completion
callback has not fired (it is the in-flight batch), yet
`bytesInQueue + bytesCorked = 0` while the accepted-uncompleted lengths sum
to 1. -/
theorem C4_in_flight_bytes_not_counted_cex :
    Reachable (step (initState 10 true false true) (.write [1] none)) ∧
    ((acceptedUncompleted
      (step (initState 10 true false true) (.write [1] none))).map List.length).sum = 1 ∧
    writableLength (step (initState 10 true false true) (.write [1] none)) = 0 := by
  refine ⟨Reachable.next (Label.write [1] none) (Reachable.init 10 true false true),
    ?_, ?_⟩ <;> decide

/-- C5 (amended): `[callWrite]` selects the sink operation by the shape of
the dispatched data, not by block count: a chunk dispatched directly from
`write` goes to the single-block operation; a queued batch (an array, of
any length — zero, one or more blocks) goes to the multi-block operation
when one is configured, and is otherwise concatenated into one contiguous
block for the single-block operation. -/
theorem C5_dispatch_selected_by_shape (s : WState) (c : Chunk) (cs : List Chunk) :
    (callWriteOp s (.chunk c)).sinkCalls = s.sinkCalls ++ [.one c] ∧
    (callWriteOp s (.list cs)).sinkCalls =
      s.sinkCalls ++ [if s.hasWritev = true then .many cs else .one cs.flatten] := by
  constructor <;> simp [callWriteOp, dispatchCall]

/-- C5 counterexample to the claim as stated: a dispatched batch with
exactly one block is passed to the multi-block operation (`_writev`), not
the single-block one: write a chunk (dispatched directly), queue a second
chunk while the first is in flight, complete the first — the redispatch
hands the one-block array `[[4, 5]]` to `_writev`. -/
theorem C5_single_block_batch_goes_to_writev_cex :
    (run (initState 100 true false true)
      [.write [1, 2, 3] none, .write [4, 5] none, .sinkDone none]).sinkCalls =
      [.one [1, 2, 3], .many [[4, 5]]] ∧
    ([[4, 5]] : List Chunk).length = 1 := by
  decide

/-- C6 (amended): with `autoDestroy` unset (the default), a write on an
ended (respectively destroyed) stream returns `false`, changes nothing but
the event trace (no chunk queued, no sink operation invoked), schedules the
supplied callback on the next tick with the write-after-end (respectively
destroyed) error, and then raises the error signal.  (With `autoDestroy`
set and the stream already destroyed, the escalation into `destroy` throws
the destroyed error instead — see the counterexample.) -/
theorem C6_rejected_write_ticks_callback_then_error
    (s : WState) (c : Chunk) (cb : Option Nat)
    (had : s.autoDestroy = false) (hrej : s.ended = true ∨ s.destroyed = true) :
    writeOp s c cb =
      ({ s with events := s.events ++ [.tick cb (rejectErr s), .error (rejectErr s)] },
       .ok false) := by
  unfold writeOp errorOrDestroyOp emitEv
  rcases hrej with h | h <;> simp [h, had]

/-- C6 witness: the general theorem applied to a stream that was ended with
no writes. -/
theorem C6_rejected_write_ticks_callback_then_error_witness :
    writeOp (step (initState 10 true false true) (.endL none)) [5] (some 3) =
      ({ step (initState 10 true false true) (.endL none) with
          events := (step (initState 10 true false true) (.endL none)).events ++
            [.tick (some 3) (rejectErr (step (initState 10 true false true) (.endL none))),
             .error (rejectErr (step (initState 10 true false true) (.endL none)))] },
       .ok false) :=
  C6_rejected_write_ticks_callback_then_error _ [5] (some 3) rfl (Or.inl rfl)

/-- C6 counterexample to the claim as stated: with `autoDestroy` configured
and the stream already destroyed, a write does not return `false` — the
error-escalation calls `destroy` on a destroyed stream, which throws the
destroyed error synchronously. -/
theorem C6_write_after_destroy_throws_under_autodestroy_cex :
    (writeOp (step (initState 10 true true true) (.destroyL false)) [1] (some 0)).2 =
      .error .destroyedExn := rfl

/-- C7: `destroy` on an already-destroyed stream always fails with the
destroyed error, leaving the state unchanged (in particular the teardown
operation is not invoked again — reachable states always satisfy
`destroyCalls = if destroyed then 1 else 0`, so teardown never runs twice);
a first `destroy` sets `destroyed` and leaves the teardown operation
pending (so `destroyed` is already true before teardown completes); and
`destroyed`, once true, is preserved by every transition. -/
theorem C7_destroy_not_idempotent_teardown_once :
    (∀ (s : WState) (hasCb : Bool), s.destroyed = true →
        destroyOp s hasCb = (s, some Exn.destroyedExn)) ∧
    (∀ (s : WState) (hasCb : Bool), s.destroyed = false →
        (destroyOp s hasCb).2 = none ∧
        (destroyOp s hasCb).1.destroyed = true ∧
        (destroyOp s hasCb).1.teardown = some hasCb ∧
        (destroyOp s hasCb).1.destroyCalls = s.destroyCalls + 1) ∧
    (∀ s : WState, Reachable s → s.destroyCalls = (if s.destroyed then 1 else 0)) ∧
    (∀ (s : WState) (l : Label), s.destroyed = true → (step s l).destroyed = true) := by
  refine ⟨?_, ?_, ?_, ?_⟩
  · intro s hasCb h
    unfold destroyOp
    simp [h]
  · intro s hasCb h
    unfold destroyOp
    simp [h]
  · intro s h
    exact (inv_reachable s h).2.2.1
  · intro s l h
    exact step_destroyed_mono s l h

/-- C7 witness: the parts of the theorem applied to concrete streams — a
second `destroy` fails and changes nothing, a first `destroy` marks the
stream destroyed with teardown pending, a fresh stream has zero teardown
invocations, and `destroyed` survives a further transition. -/
theorem C7_destroy_not_idempotent_teardown_once_witness :
    destroyOp (step (initState 10 true false true) (.destroyL false)) true =
      ((step (initState 10 true false true) (.destroyL false)), some Exn.destroyedExn) ∧
    (destroyOp (initState 10 true false true) false).1.destroyed = true ∧
    (destroyOp (initState 10 true false true) false).1.teardown = some false ∧
    (initState 10 true false true).destroyCalls =
      (if (initState 10 true false true).destroyed then 1 else 0) ∧
    (step (step (initState 10 true false true) (.destroyL false)) .cork).destroyed = true :=
  ⟨C7_destroy_not_idempotent_teardown_once.1 _ true (by decide),
   (C7_destroy_not_idempotent_teardown_once.2.1 _ false (by decide)).2.1,
   (C7_destroy_not_idempotent_teardown_once.2.1 _ false (by decide)).2.2.1,
   C7_destroy_not_idempotent_teardown_once.2.2.1 _ (Reachable.init 10 true false true),
   C7_destroy_not_idempotent_teardown_once.2.2.2 _ .cork (by decide)⟩

/-- C8: from a quiescent stream (not corked, nothing in flight, empty
queues, not ended or destroyed), `cork()` followed by N accepted writes
followed by one `uncork()` produces exactly one sink dispatch — covering
all N chunks in acceptance order: the multi-block operation receives the
ordered list, or, without one, the single-block operation receives their
concatenation. -/
theorem C8_cork_writes_uncork_single_batched_dispatch (s : WState) (cs : List Chunk)
    (hc : s.corked = 0) (hw : s.writing = false) (he : s.ended = false)
    (hd : s.destroyed = false) (hb : s.buffers = []) (hcb : s.corkedBuffers = []) :
    (run s (Label.cork :: cs.map (fun c => Label.write c none) ++ [Label.uncork])).sinkCalls =
      s.sinkCalls ++
        [if s.hasWritev = true then SinkCall.many cs else SinkCall.one cs.flatten] := by
  have hrun : run s (Label.cork :: cs.map (fun c => Label.write c none) ++ [Label.uncork]) =
      uncorkOp (run (corkOp s) (cs.map (fun c => Label.write c none))) := by
    simp only [run, List.foldl_cons, List.foldl_append, List.foldl_nil, step]
  obtain ⟨h1, h2, h3, h4, h5, h6, h7, h8, h9, h10, h11, h12⟩ :=
    run_corked_writes cs (corkOp s)
      (by simp [corkOp, hc]) (by simpa [corkOp] using he) (by simpa [corkOp] using hd)
  rw [hrun, uncorkOp_dispatch _ h1 (by rw [h4]; simpa [corkOp] using hw)]
  simp only [corkOp] at h5 h7 h10 h11 ⊢
  rw [h5, h7, h10, h11]
  simp [hb, hcb, dispatchCall]

/-- C8 witness: the theorem applied to a fresh stream and two chunks. -/
theorem C8_cork_writes_uncork_single_batched_dispatch_witness :
    (run (initState 100 true false true)
      (Label.cork :: ([[1], [2, 3]] : List Chunk).map (fun c => Label.write c none) ++
        [Label.uncork])).sinkCalls =
      (initState 100 true false true).sinkCalls ++
        [if (initState 100 true false true).hasWritev = true then
          SinkCall.many [[1], [2, 3]] else SinkCall.one ([[1], [2, 3]] : List Chunk).flatten] :=
  C8_cork_writes_uncork_single_batched_dispatch (initState 100 true false true)
    [[1], [2, 3]] rfl rfl rfl rfl rfl rfl

/-- C10: when `uncork()` brings the cork depth to zero on a stream with
empty queues and no operation in flight, a sink dispatch still occurs with
an empty batch: the multi-block operation is invoked with the empty list,
or, without one, the single-block operation with a zero-length block. -/
theorem C10_uncork_at_zero_dispatches_empty_batch (s : WState)
    (hc : s.corked = 1) (hw : s.writing = false)
    (hb : s.buffers = []) (hcb : s.corkedBuffers = []) :
    (uncorkOp s).sinkCalls =
      s.sinkCalls ++ [if s.hasWritev = true then SinkCall.many [] else SinkCall.one []] ∧
    (uncorkOp s).writing = true ∧
    (uncorkOp s).inFlightChunks = [] := by
  rw [uncorkOp_dispatch s hc hw]
  simp [hb, hcb, dispatchCall]

/-- C10 witness: the theorem applied to a fresh corked stream. -/
theorem C10_uncork_at_zero_dispatches_empty_batch_witness :
    (uncorkOp (corkOp (initState 5 true false true))).sinkCalls =
      (corkOp (initState 5 true false true)).sinkCalls ++
        [if (corkOp (initState 5 true false true)).hasWritev = true then
          SinkCall.many [] else SinkCall.one []] ∧
    (uncorkOp (corkOp (initState 5 true false true))).writing = true ∧
    (uncorkOp (corkOp (initState 5 true false true))).inFlightChunks = [] :=
  C10_uncork_at_zero_dispatches_empty_batch (corkOp (initState 5 true false true))
    rfl rfl rfl rfl

/-- C9: the FileSink adapter issues every sink write — single-block and
multi-block alike — at file position `start + bytesWritten`, and on
success advances the cumulative counter by exactly the byte count the
underlying write reports; over any sequence of successful writes the
issued positions are therefore contiguous from `start + bytesWritten`,
each advancing by the reported count, and the final counter is the initial
counter plus the sum of all reported counts. -/
theorem C9_filesink_contiguous_offsets (f : FsState) (d : Chunk) (ds : List Chunk)
    (res : Except Err Nat) (b : Nat) (ws : List (FsReq × Nat)) :
    (fsWriteOne f d res).1 = FsCall.write (f.start + f.bytesWritten) d ∧
    (fsWriteMany f ds res).1 = FsCall.writev (f.start + f.bytesWritten) ds ∧
    (fsWriteOne f d (.ok b)).2.bytesWritten = f.bytesWritten + b ∧
    (fsWriteMany f ds (.ok b)).2.bytesWritten = f.bytesWritten + b ∧
    fsRunOffsets f ws = contiguousFrom (f.start + f.bytesWritten) ws ∧
    (fsRunState f ws).bytesWritten = f.bytesWritten + (ws.map Prod.snd).sum ∧
    (fsRunState f ws).start = f.start := by
  refine ⟨rfl, rfl, rfl, rfl, fsRunOffsets_contiguous ws f, ?_, ?_⟩ <;>
    simp [fsRunState_sum]

end WritableStreams
